import Mathlib

/-!
# podman: `system connection list`, machine-name completion, capability test helper

A shallow embedding of

* `cmd/podman/system/connection/list.go`  (`list`: the rows built from the
  configured service destinations and sorted by name),
* `cmd/podman/machine/machine.go`         (`getMachines`: completion of
  machine names from the backend listing),
* `test/e2e/run_privileged_test.go`       (`containerCapMatchesHost`).

Conventions of the embedding

* A Go `string` is its sequence of bytes; `==` and `<` on Go strings compare
  byte-wise, which is equality and the lexicographic order of `List (Fin 256)`.
* A Go slice is a `List`; the `nil` slice and the empty slice are both `[]`.
* A Go `map[string]V` being ranged over is the list of its `(key, value)`
  entries in the order in which the `range` statement visits them.  Go leaves
  that order unspecified, so statements quantify over every such list; the
  keys of a map are pairwise distinct (`GoMap.Distinct`).
* `sort.Slice` belongs to the Go standard library.  It enters as a parameter
  `SortSlice` carrying its documented contract (it permutes the slice, the
  result is ordered with respect to `less`, stability is not promised);
  `insertionSortSlice` is a concrete inhabitant.
* A value of Go type `error` is represented by its message.
* `uint64` values are naturals below `2 ^ 64`, arithmetic is reduced modulo
  `2 ^ 64` explicitly.
-/

/-- Go `string`: a sequence of bytes, compared byte-wise. -/
abbrev GoString := List (Fin 256)

/-- Go `error`, represented by the text `err.Error()` returns. -/
abbrev GoError := GoString

namespace GoMap

/-- The keys of a ranged-over map, in visiting order. -/
def keys {V : Type} (m : List (GoString × V)) : List GoString :=
  m.map Prod.fst

/-- The entries come from a Go map: no key occurs twice. -/
def Distinct {V : Type} (m : List (GoString × V)) : Prop :=
  (keys m).Nodup

instance instDecidableDistinct {V : Type} (m : List (GoString × V)) : Decidable (Distinct m) :=
  inferInstanceAs (Decidable (keys m).Nodup)

end GoMap

/-- Standard library `sort.Slice(x, less)`, by its contract: for every `less`
the result is a rearrangement of `x`; when `less` is a strict weak ordering
(asymmetric, transitive, and with transitive incomparability, as
`sort.Interface` requires of `Less`) no element of the result is `less` than
an element before it.  Nothing is assumed about the order of equal elements. -/
structure SortSlice where
  sort : {α : Type} → (α → α → Bool) → List α → List α
  perm : ∀ {α : Type} (less : α → α → Bool) (x : List α), (sort less x).Perm x
  sorted : ∀ {α : Type} (less : α → α → Bool) (x : List α),
    (∀ a b, less a b = true → less b a = false) →
    (∀ a b c, less a b = true → less b c = true → less a c = true) →
    (∀ a b c, less a b = false → less b c = false → less a c = false) →
    (sort less x).Pairwise (fun a b => less b a = false)

/-- Insertion sort (the algorithm `sort.Slice` itself finishes short slices
with) meets the contract of `SortSlice`. -/
def insertionSortSlice : SortSlice where
  sort := fun less x => x.insertionSort (fun a b => less b a = false)
  perm := fun less x => List.perm_insertionSort (fun a b => less b a = false) x
  sorted := fun {α} less x hasymm _ hneg =>
    @List.sorted_insertionSort α (fun a b => less b a = false) _
      ⟨fun a b => by
        cases hba : less b a
        · exact Or.inl rfl
        · exact Or.inr (hasymm b a hba)⟩
      ⟨fun a b c hab hbc => hneg c b a hbc hab⟩ x

namespace config

/-- Type `config.Destination` of containers/common: where a service lives. -/
structure Destination where
  URI : GoString
  Identity : GoString
deriving DecidableEq, Repr

/-- The fields of `config.EngineConfig` that `list` reads. -/
structure EngineConfig where
  ActiveService : GoString
  ServiceDestinations : List (GoString × Destination)
deriving DecidableEq, Repr

/-- The part of `config.Config` that `list` reads. -/
structure Config where
  Engine : EngineConfig
deriving DecidableEq, Repr

end config

namespace connection

/-- Struct `namedDestination` (list.go:44-48): one printed row. -/
structure namedDestination where
  Name : GoString
  Destination : config.Destination
  Default : Bool
deriving DecidableEq, Repr

/-- The row the body of the `range` loop builds for entry `(k, v)`
(list.go:65-77). -/
def mkRow (ActiveService : GoString) (k : GoString) (v : config.Destination) :
    namedDestination :=
  let isDef := if k = ActiveService then true else false
  { Name := k
    Destination := { Identity := v.Identity, URI := v.URI }
    Default := isDef }

/-- The loop of list.go:63-79: starting from the empty slice, append one row
per visited entry. -/
def buildRows (cfg : config.Config) : List namedDestination :=
  cfg.Engine.ServiceDestinations.foldl
    (fun rows kv => rows ++ [mkRow cfg.Engine.ActiveService kv.1 kv.2]) []

/-- The comparison passed to `sort.Slice` (list.go:81-83). -/
def lessName (a b : namedDestination) : Bool :=
  decide (a.Name < b.Name)

/-- The rows after `sort.Slice` (list.go:63-83); this is the value handed to
the JSON encoder or to the template. -/
def listRows (s : SortSlice) (cfg : config.Config) : List namedDestination :=
  s.sort lessName (buildRows cfg)

/-- Function `list` (list.go:50-117) up to the rows it hands to the printer:
a failed `config.ReadCustomConfig` is returned as is, otherwise the sorted
rows are produced. -/
def list (s : SortSlice) (readCustomConfig : Except GoError config.Config) :
    Except GoError (List namedDestination) :=
  match readCustomConfig with
  | .error err => .error err
  | .ok cfg => .ok (listRows s cfg)

end connection

namespace machine

/-- Type `machine.ListResponse`; `getMachines` reads only `Name`. -/
structure ListResponse where
  Name : GoString
deriving DecidableEq, Repr

/-- Type `cobra.ShellCompDirective`, a bit set. -/
abbrev ShellCompDirective := Nat

/-- Constant `cobra.ShellCompDirectiveDefault`. -/
def ShellCompDirectiveDefault : ShellCompDirective := 0

/-- Constant `cobra.ShellCompDirectiveNoFileComp` (`1 << 2`). -/
def ShellCompDirectiveNoFileComp : ShellCompDirective := 4

/-- Standard library `strings.HasPrefix(s, p)`:
`len(s) >= len(p) && s[0:len(p)] == p`. -/
def HasPrefix (s p : GoString) : Bool :=
  decide (s.length ≥ p.length) && decide (s.take p.length = p)

/-- What a call of `getMachines` produces: the two returned values and the
lines it wrote with `cobra.CompErrorln`. -/
structure Completion where
  suggestions : List GoString
  directive : ShellCompDirective
  compErrors : List GoString
deriving DecidableEq, Repr

/-- Function `getMachines` (machine.go:52-65).  `qemuList` is the outcome of
`qemu.List(machine.ListOptions{})`. -/
def getMachines (qemuList : Except GoError (List ListResponse)) (toComplete : GoString) :
    Completion :=
  match qemuList with
  | .error err =>
    { suggestions := [], directive := ShellCompDirectiveNoFileComp, compErrors := [err] }
  | .ok machines =>
    { suggestions := machines.foldl
        (fun suggestions m =>
          if HasPrefix m.Name toComplete then suggestions ++ [m.Name] else suggestions) []
      directive := ShellCompDirectiveNoFileComp
      compErrors := [] }

end machine

namespace integration

/-- The expectation of `containerCapMatchesHost` that failed. -/
inductive Failure where
  | hostCapZero
  | hostCapLessThanCtr
  | ctrNotHostMasked
deriving DecidableEq, Repr

/-- The mask `1<<len(capability.List()) - 1` in `uint64` arithmetic: a shift by
64 or more yields 0, and the subtraction wraps. -/
def capMask (numCaps : Nat) : Nat :=
  ((1 <<< numCaps) % 2 ^ 64 + 2 ^ 64 - 1) % 2 ^ 64

/-- Helper `containerCapMatchesHost` (run_privileged_test.go:20-36) after the
two `strconv.ParseUint` calls succeeded with `ctrCapN` and `hostCapN`;
`numCaps` is `len(capability.List())`.  A failed `Expect` ends the test. -/
def containerCapMatchesHost (isRootless : Bool) (ctrCapN hostCapN numCaps : Nat) :
    Except Failure Unit :=
  if isRootless then .ok ()
  else if ¬ (hostCapN > 0) then .error .hostCapZero
  else if ¬ (hostCapN ≥ ctrCapN) then .error .hostCapLessThanCtr
  else
    let hostCapMasked := hostCapN &&& capMask numCaps
    if ctrCapN = hostCapMasked then .ok () else .error .ctrNotHostMasked

end integration

/-! ## Concrete inputs used to exercise the statements -/

/-- Destination `ssh://h` (bytes of the URI) with identity `k`. -/
def exampleDestination : config.Destination :=
  { URI := [115, 115, 104, 58, 47, 47, 104], Identity := [107] }

/-- A registry whose map is visited in the order `beta`, `alpha`, `gamma`,
with `alpha` the active service. -/
def exampleConfig : config.Config :=
  { Engine :=
    { ActiveService := [97, 108, 112, 104, 97]
      ServiceDestinations :=
        [ ([98, 101, 116, 97], exampleDestination),
          ([97, 108, 112, 104, 97], { URI := [117], Identity := [] }),
          ([103, 97, 109, 109, 97], { URI := [118], Identity := [105] }) ] } }

/-- A backend listing that is not in name order: machine `a-b` before
machine `a` (the order of the file names `a-b.json`, `a.json`). -/
def unsortedMachines : List machine.ListResponse :=
  [{ Name := [97, 45, 98] }, { Name := [97] }]

/-- A backend listing with the machines `vm1`, `Vm2`, `dev`. -/
def exampleMachines : List machine.ListResponse :=
  [{ Name := [118, 109, 49] }, { Name := [86, 109, 50] }, { Name := [100, 101, 118] }]

/-! ## Auxiliary facts -/

/-- A loop that appends one element per visited item computes a `map`. -/
theorem foldl_append_singleton {α β : Type} (f : α → β) (l : List α) (init : List β) :
    l.foldl (fun acc x => acc ++ [f x]) init = init ++ l.map f := by
  induction l generalizing init with
  | nil => simp
  | cons x xs ih => simp [ih]

/-- A loop that appends the items passing a test computes a `filter`. -/
theorem foldl_append_if {α β : Type} (p : α → Bool) (f : α → β) (l : List α)
    (init : List β) :
    l.foldl (fun acc x => if p x then acc ++ [f x] else acc) init
      = init ++ (l.filter p).map f := by
  induction l generalizing init with
  | nil => simp
  | cons x xs ih =>
    by_cases hx : p x = true
    · simp [ih, hx]
    · simp [ih, hx]

/-- In a list without repetition a value occurs once or not at all. -/
theorem countP_eq_of_nodup {α : Type} [DecidableEq α] (a : α) (l : List α) (h : l.Nodup) :
    l.countP (fun x => decide (x = a)) = if a ∈ l then 1 else 0 := by
  induction l with
  | nil => simp
  | cons x xs ih =>
    obtain ⟨hx, hxs⟩ := List.nodup_cons.mp h
    by_cases hxa : x = a
    · subst hxa
      have h0 : xs.countP (fun y => decide (y = x)) = 0 := by
        rw [ih hxs, if_neg hx]
      simp [List.countP_cons, h0]
    · have hax : ¬ a = x := fun e => hxa e.symm
      simp [List.countP_cons, ih hxs, hxa, hax]

namespace connection

theorem buildRows_eq_map (cfg : config.Config) :
    buildRows cfg
      = cfg.Engine.ServiceDestinations.map
          (fun kv => mkRow cfg.Engine.ActiveService kv.1 kv.2) := by
  have h := foldl_append_singleton
    (fun kv : GoString × config.Destination => mkRow cfg.Engine.ActiveService kv.1 kv.2)
    cfg.Engine.ServiceDestinations []
  simpa [buildRows] using h

theorem listRows_perm (s : SortSlice) (cfg : config.Config) :
    (listRows s cfg).Perm (buildRows cfg) :=
  s.perm lessName (buildRows cfg)

theorem listRows_pairwise (s : SortSlice) (cfg : config.Config) :
    (listRows s cfg).Pairwise (fun a b => a.Name ≤ b.Name) := by
  have h := s.sorted lessName (buildRows cfg)
    (fun a b hab => by
      simp only [lessName, decide_eq_true_eq, decide_eq_false_iff_not] at hab ⊢
      exact not_lt_of_gt hab)
    (fun a b c hab hbc => by
      simp only [lessName, decide_eq_true_eq] at hab hbc ⊢
      exact lt_trans hab hbc)
    (fun a b c hab hbc => by
      simp only [lessName, decide_eq_false_iff_not, not_lt] at hab hbc ⊢
      exact le_trans hbc hab)
  refine h.imp ?_
  intro a b hba
  simpa [lessName] using hba

theorem map_name_buildRows (cfg : config.Config) :
    (buildRows cfg).map (fun r => r.Name) = GoMap.keys cfg.Engine.ServiceDestinations := by
  rw [buildRows_eq_map, List.map_map]
  rfl

theorem map_name_listRows_perm (s : SortSlice) (cfg : config.Config) :
    ((listRows s cfg).map (fun r => r.Name)).Perm
      (GoMap.keys cfg.Engine.ServiceDestinations) := by
  rw [← map_name_buildRows]
  exact (listRows_perm s cfg).map _

theorem nodup_name_listRows (s : SortSlice) (cfg : config.Config)
    (h : GoMap.Distinct cfg.Engine.ServiceDestinations) :
    ((listRows s cfg).map (fun r => r.Name)).Nodup :=
  (map_name_listRows_perm s cfg).nodup_iff.mpr h

theorem listRows_pairwise_lt (s : SortSlice) (cfg : config.Config)
    (h : GoMap.Distinct cfg.Engine.ServiceDestinations) :
    (listRows s cfg).Pairwise (fun a b => a.Name < b.Name) := by
  have hne : (listRows s cfg).Pairwise (fun a b => a.Name ≠ b.Name) :=
    (List.pairwise_map).mp (nodup_name_listRows s cfg h)
  exact ((listRows_pairwise s cfg).and hne).imp (fun hab => lt_of_le_of_ne hab.1 hab.2)

theorem default_iff_of_mem_buildRows (cfg : config.Config) (r : namedDestination)
    (hr : r ∈ buildRows cfg) : r.Default = true ↔ r.Name = cfg.Engine.ActiveService := by
  rw [buildRows_eq_map] at hr
  obtain ⟨kv, _, rfl⟩ := List.mem_map.mp hr
  simp [mkRow]

/-- The number of default rows is the number of keys equal to `ActiveService`. -/
theorem countP_default_listRows (s : SortSlice) (cfg : config.Config) :
    (listRows s cfg).countP (fun r => r.Default)
      = (GoMap.keys cfg.Engine.ServiceDestinations).countP
          (fun k => decide (k = cfg.Engine.ActiveService)) := by
  rw [(listRows_perm s cfg).countP_eq, buildRows_eq_map, List.countP_map, GoMap.keys,
    List.countP_map]
  apply List.countP_congr
  intro kv _
  simp [mkRow]

end connection

/-! ## `podman system connection list` -/

namespace connection

/-- C1: for a registry configuration (entries of a Go map, hence with distinct
names, in any visiting order) `list` succeeds with the rows `listRows`, and
these are sorted by `Name` in ascending byte-wise order: for all positions
`i < j`, `rows[i].Name ≤ rows[j].Name`, and in fact `rows[i].Name <
rows[j].Name`. -/
theorem list_rows_sorted_by_name (s : SortSlice) (cfg : config.Config)
    (h : GoMap.Distinct cfg.Engine.ServiceDestinations) :
    list s (.ok cfg) = .ok (listRows s cfg) ∧
    ∀ i j : Fin (listRows s cfg).length, i < j →
      ((listRows s cfg).get i).Name ≤ ((listRows s cfg).get j).Name ∧
      ((listRows s cfg).get i).Name < ((listRows s cfg).get j).Name := by
  refine ⟨rfl, fun i j hij => ?_⟩
  have hlt := List.pairwise_iff_get.mp (listRows_pairwise_lt s cfg h) i j hij
  exact ⟨le_of_lt hlt, hlt⟩

theorem list_rows_sorted_by_name_witness :
    GoMap.Distinct exampleConfig.Engine.ServiceDestinations ∧
    (list insertionSortSlice (.ok exampleConfig)
        = .ok (listRows insertionSortSlice exampleConfig) ∧
      ∀ i j : Fin (listRows insertionSortSlice exampleConfig).length, i < j →
        ((listRows insertionSortSlice exampleConfig).get i).Name
            ≤ ((listRows insertionSortSlice exampleConfig).get j).Name ∧
        ((listRows insertionSortSlice exampleConfig).get i).Name
            < ((listRows insertionSortSlice exampleConfig).get j).Name) :=
  ⟨by decide, list_rows_sorted_by_name insertionSortSlice exampleConfig (by decide)⟩

/-- C2: for a registry configuration (distinct names) and any `ActiveService`,
also one that names no destination, at most one of the rows built by `list`
has `Default = true`. -/
theorem list_at_most_one_default (s : SortSlice) (cfg : config.Config)
    (h : GoMap.Distinct cfg.Engine.ServiceDestinations) :
    ((listRows s cfg).filter (fun r => r.Default)).length ≤ 1 := by
  rw [← List.countP_eq_length_filter, countP_default_listRows, countP_eq_of_nodup _ _ h]
  split <;> omega

theorem list_at_most_one_default_witness :
    GoMap.Distinct exampleConfig.Engine.ServiceDestinations ∧
    ((listRows insertionSortSlice exampleConfig).filter (fun r => r.Default)).length ≤ 1 :=
  ⟨by decide, list_at_most_one_default insertionSortSlice exampleConfig (by decide)⟩

/-- C6: for a registry configuration (distinct names) no two rows built by
`list` have the same `Name`, and there are as many rows as destinations in
`ServiceDestinations`. -/
theorem list_rows_names_unique (s : SortSlice) (cfg : config.Config)
    (h : GoMap.Distinct cfg.Engine.ServiceDestinations) :
    (∀ i j : Fin (listRows s cfg).length,
      ((listRows s cfg).get i).Name = ((listRows s cfg).get j).Name → i = j) ∧
    (listRows s cfg).length = cfg.Engine.ServiceDestinations.length := by
  constructor
  · intro i j hij
    have hnd := nodup_name_listRows s cfg h
    have hinj := List.nodup_iff_injective_get.mp hnd
    have hi : i.1 < ((listRows s cfg).map (fun r => r.Name)).length := by
      simp
    have hj : j.1 < ((listRows s cfg).map (fun r => r.Name)).length := by
      simp
    have := @hinj ⟨i.1, hi⟩ ⟨j.1, hj⟩ (by simpa using hij)
    exact Fin.ext (by simpa using congrArg Fin.val this)
  · rw [(listRows_perm s cfg).length_eq, buildRows_eq_map, List.length_map]

theorem list_rows_names_unique_witness :
    GoMap.Distinct exampleConfig.Engine.ServiceDestinations ∧
    ((∀ i j : Fin (listRows insertionSortSlice exampleConfig).length,
      ((listRows insertionSortSlice exampleConfig).get i).Name
        = ((listRows insertionSortSlice exampleConfig).get j).Name → i = j) ∧
    (listRows insertionSortSlice exampleConfig).length
      = exampleConfig.Engine.ServiceDestinations.length) :=
  ⟨by decide, list_rows_names_unique insertionSortSlice exampleConfig (by decide)⟩

/-- C7: when the configuration was read successfully and `ServiceDestinations`
is empty, then for any `ActiveService` the rows built are the empty sequence,
sorting leaves them empty, and `list` succeeds with the empty sequence. -/
theorem list_empty_registry (s : SortSlice) (activeService : GoString) :
    buildRows { Engine := { ActiveService := activeService, ServiceDestinations := [] } } = [] ∧
    s.sort lessName ([] : List namedDestination) = [] ∧
    list s (.ok { Engine := { ActiveService := activeService, ServiceDestinations := [] } })
      = .ok [] := by
  have hs : s.sort lessName ([] : List namedDestination) = [] :=
    List.Perm.eq_nil (s.perm lessName [])
  refine ⟨rfl, hs, ?_⟩
  show Except.ok (s.sort lessName []) = Except.ok []
  rw [hs]

/-- C8: for a registry configuration (distinct names) a row built by `list`
has `Default = true` exactly when its `Name` equals `ActiveService`; the
number of default rows is one when `ActiveService` is a key of
`ServiceDestinations` and zero when it is not. -/
theorem list_default_iff_active (s : SortSlice) (cfg : config.Config)
    (h : GoMap.Distinct cfg.Engine.ServiceDestinations) :
    (∀ r ∈ listRows s cfg, (r.Default = true ↔ r.Name = cfg.Engine.ActiveService)) ∧
    ((listRows s cfg).filter (fun r => r.Default)).length
      = if cfg.Engine.ActiveService ∈ GoMap.keys cfg.Engine.ServiceDestinations
        then 1 else 0 := by
  constructor
  · intro r hr
    exact default_iff_of_mem_buildRows cfg r ((listRows_perm s cfg).mem_iff.mp hr)
  · rw [← List.countP_eq_length_filter, countP_default_listRows, countP_eq_of_nodup _ _ h]
    by_cases hmem : cfg.Engine.ActiveService ∈ GoMap.keys cfg.Engine.ServiceDestinations
    · simp [hmem]
    · simp [hmem]

theorem list_default_iff_active_witness :
    GoMap.Distinct exampleConfig.Engine.ServiceDestinations ∧
    ((∀ r ∈ listRows insertionSortSlice exampleConfig,
        (r.Default = true ↔ r.Name = exampleConfig.Engine.ActiveService)) ∧
    ((listRows insertionSortSlice exampleConfig).filter (fun r => r.Default)).length
      = if exampleConfig.Engine.ActiveService
            ∈ GoMap.keys exampleConfig.Engine.ServiceDestinations
        then 1 else 0) :=
  ⟨by decide, list_default_iff_active insertionSortSlice exampleConfig (by decide)⟩

/-- C9: the rows built by `list` are exactly the registry entries: every entry
`(k, v)` has a row with `Name = k`, `Identity = v.Identity`, `URI = v.URI`;
every row arises from such an entry; and the sorted rows are a permutation of
the rows built, one per visited entry. -/
theorem list_rows_are_registry_entries (s : SortSlice) (cfg : config.Config) :
    (∀ k v, (k, v) ∈ cfg.Engine.ServiceDestinations →
      ∃ r ∈ listRows s cfg,
        r.Name = k ∧ r.Destination.Identity = v.Identity ∧ r.Destination.URI = v.URI) ∧
    (∀ r ∈ listRows s cfg, ∃ k v, (k, v) ∈ cfg.Engine.ServiceDestinations ∧
        r.Name = k ∧ r.Destination.Identity = v.Identity ∧ r.Destination.URI = v.URI) ∧
    (listRows s cfg).Perm
      (cfg.Engine.ServiceDestinations.map
        (fun kv => { Name := kv.1, Destination := kv.2,
                     Default := decide (kv.1 = cfg.Engine.ActiveService) })) := by
  have hperm := listRows_perm s cfg
  rw [buildRows_eq_map] at hperm
  refine ⟨?_, ?_, ?_⟩
  · intro k v hkv
    refine ⟨mkRow cfg.Engine.ActiveService k v, ?_, rfl, rfl, rfl⟩
    exact hperm.mem_iff.mpr (List.mem_map.mpr ⟨(k, v), hkv, rfl⟩)
  · intro r hr
    obtain ⟨kv, hkv, rfl⟩ := List.mem_map.mp (hperm.mem_iff.mp hr)
    exact ⟨kv.1, kv.2, hkv, rfl, rfl, rfl⟩
  · refine hperm.trans (List.Perm.of_eq ?_)
    apply List.map_congr_left
    intro kv _
    simp [mkRow]

end connection

/-- The rows `list` prints for `exampleConfig`, evaluated: `alpha` (default),
`beta`, `gamma`. -/
theorem listRows_exampleConfig :
    connection.list insertionSortSlice (.ok exampleConfig)
      = .ok [ { Name := [97, 108, 112, 104, 97],
                Destination := { URI := [117], Identity := [] }, Default := true },
              { Name := [98, 101, 116, 97],
                Destination := exampleDestination, Default := false },
              { Name := [103, 97, 109, 109, 97],
                Destination := { URI := [118], Identity := [105] }, Default := false } ] :=
  congrArg Except.ok (by decide)

/-! ## Machine-name completion -/

namespace machine

/-- Function `strings.HasPrefix` holds exactly when `s` starts with the bytes
of `p`. -/
theorem HasPrefix_iff (s p : GoString) : HasPrefix s p = true ↔ p <+: s := by
  unfold HasPrefix
  constructor
  · intro h
    simp only [Bool.and_eq_true, decide_eq_true_eq] at h
    refine ⟨s.drop p.length, ?_⟩
    have hsplit := List.take_append_drop p.length s
    rw [h.2] at hsplit
    exact hsplit
  · rintro ⟨t, rfl⟩
    simp

theorem getMachines_ok_suggestions (machines : List ListResponse) (toComplete : GoString) :
    (getMachines (.ok machines) toComplete).suggestions
      = (machines.filter (fun m => HasPrefix m.Name toComplete)).map (fun m => m.Name) := by
  have h := foldl_append_if (fun m : ListResponse => HasPrefix m.Name toComplete)
    (fun m => m.Name) machines []
  simpa [getMachines] using h

/-- C3: when the backend listing succeeded with `machines`,
`getMachines(toComplete)` returns exactly the names of the machines whose
`Name` starts with the bytes of `toComplete` (so the match is case-sensitive),
once per such machine and in backend order, i.e. the backend name list
filtered by the prefix test, together with `ShellCompDirectiveNoFileComp`. -/
theorem getMachines_filters_by_HasPrefix (machines : List ListResponse)
    (toComplete : GoString) :
    (getMachines (.ok machines) toComplete).suggestions
      = (machines.map (fun m => m.Name)).filter (fun n => decide (toComplete <+: n)) ∧
    (getMachines (.ok machines) toComplete).directive = ShellCompDirectiveNoFileComp := by
  refine ⟨?_, rfl⟩
  rw [getMachines_ok_suggestions, List.filter_map]
  congr 1
  apply List.filter_congr
  intro m _
  simp only [Function.comp]
  by_cases hp : toComplete <+: m.Name
  · simp [hp, (HasPrefix_iff _ _).mpr hp]
  · have : HasPrefix m.Name toComplete = false := by
      cases hb : HasPrefix m.Name toComplete
      · rfl
      · exact absurd ((HasPrefix_iff _ _).mp hb) hp
    simp [hp, this]

/-- C4, as stated, fails: for the backend listing `a-b`, `a` the empty prefix
yields the suggestions `a-b`, `a`, which are all names but not in ascending
order. -/
theorem getMachines_empty_not_sorted :
    (getMachines (.ok unsortedMachines) []).suggestions = [[97, 45, 98], [97]] ∧
    ¬ ((getMachines (.ok unsortedMachines) []).suggestions).Sorted (fun a b => a ≤ b) := by
  decide

/-- C4, amended: when the backend listing succeeded with `machines`,
`getMachines("")` returns all machine names, one per machine and in the order
of the backend listing; no sorting takes place, so the suggestions are in
ascending order exactly when the backend listing is. -/
theorem getMachines_empty_returns_all_in_backend_order (machines : List ListResponse) :
    (getMachines (.ok machines) []).suggestions = machines.map (fun m => m.Name) ∧
    (getMachines (.ok machines) []).directive = ShellCompDirectiveNoFileComp ∧
    (((getMachines (.ok machines) []).suggestions).Sorted (fun a b => a ≤ b)
      ↔ machines.Sorted (fun a b => a.Name ≤ b.Name)) := by
  have hs : (getMachines (.ok machines) []).suggestions = machines.map (fun m => m.Name) := by
    rw [getMachines_ok_suggestions]
    congr 1
    apply List.filter_eq_self.mpr
    intro m _
    exact (HasPrefix_iff _ _).mpr ⟨m.Name, rfl⟩
  refine ⟨hs, rfl, ?_⟩
  rw [hs]
  exact List.pairwise_map

/-- C5: when the backend listing fails, `getMachines` reports no failure of
its own: it returns no names and `ShellCompDirectiveNoFileComp` (the error
text went to `cobra.CompErrorln`); and when the listing succeeds the
suggestions are empty exactly when no machine name starts with
`toComplete`. -/
theorem getMachines_degrades_to_empty (toComplete : GoString) :
    (∀ err : GoError, getMachines (.error err) toComplete
      = { suggestions := [], directive := ShellCompDirectiveNoFileComp,
          compErrors := [err] }) ∧
    (∀ machines : List ListResponse,
      (getMachines (.ok machines) toComplete).directive = ShellCompDirectiveNoFileComp ∧
      ((getMachines (.ok machines) toComplete).suggestions = []
        ↔ ∀ m ∈ machines, ¬ toComplete <+: m.Name)) := by
  refine ⟨fun _ => rfl, fun machines => ⟨rfl, ?_⟩⟩
  rw [getMachines_ok_suggestions, List.map_eq_nil_iff, List.filter_eq_nil_iff]
  constructor
  · intro h m hm hp
    exact h m hm ((HasPrefix_iff _ _).mpr hp)
  · intro h m hm hb
    exact h m hm ((HasPrefix_iff _ _).mp hb)

/-- Evaluation on the listing `vm1`, `Vm2`, `dev`: the prefix `v` selects
`vm1` only (`Vm2` differs in case), the empty prefix selects every name in
listing order, `zz-nonexistent` selects nothing, and so does a failed
listing, whose error text is reported through `cobra.CompErrorln`. -/
theorem getMachines_examples :
    getMachines (.ok exampleMachines) [118]
      = { suggestions := [[118, 109, 49]], directive := 4, compErrors := [] } ∧
    getMachines (.ok exampleMachines) []
      = { suggestions := [[118, 109, 49], [86, 109, 50], [100, 101, 118]],
          directive := 4, compErrors := [] } ∧
    getMachines (.ok exampleMachines)
        [122, 122, 45, 110, 111, 110, 101, 120, 105, 115, 116, 101, 110, 116]
      = { suggestions := [], directive := 4, compErrors := [] } ∧
    getMachines (.error [101, 114, 114])
        [122, 122, 45, 110, 111, 110, 101, 120, 105, 115, 116, 101, 110, 116]
      = { suggestions := [], directive := 4, compErrors := [[101, 114, 114]] } := by
  decide

end machine

/-! ## The capability comparison of the privileged-container tests -/

namespace integration

/-- The mask has the `numCaps` low bits set when `numCaps < 64`, and all 64
bits otherwise. -/
theorem capMask_eq (numCaps : Nat) :
    capMask numCaps = if numCaps < 64 then 2 ^ numCaps - 1 else 2 ^ 64 - 1 := by
  unfold capMask
  rw [Nat.shiftLeft_eq, Nat.one_mul]
  split
  · next hlt =>
    have hpow : 2 ^ numCaps < 2 ^ 64 := Nat.pow_lt_pow_right (by decide) hlt
    have hpos : 0 < 2 ^ numCaps := Nat.two_pow_pos numCaps
    rw [Nat.mod_eq_of_lt hpow]
    have : 2 ^ numCaps + 2 ^ 64 - 1 = (2 ^ numCaps - 1) + 2 ^ 64 := by omega
    rw [this, Nat.add_mod_right, Nat.mod_eq_of_lt (by omega)]
  · next hge =>
    have hdvd : 2 ^ 64 ∣ 2 ^ numCaps := Nat.pow_dvd_pow 2 (by omega)
    rw [Nat.mod_eq_zero_of_dvd hdvd]
    decide

/-- A value masked from `h` has no bit outside `h`. -/
theorem land_land_self (h m : Nat) : (h &&& m) &&& h = h &&& m := by
  apply Nat.eq_of_testBit_eq
  intro i
  simp only [Nat.testBit_land]
  cases Nat.testBit h i <;> cases Nat.testBit m i <;> rfl

/-- Masking a `uint64` value with the capability mask keeps its `numCaps`
low bits. -/
theorem land_capMask_eq_mod (hostCapN numCaps : Nat) (hh : hostCapN < 2 ^ 64) :
    hostCapN &&& capMask numCaps = hostCapN % 2 ^ numCaps := by
  rw [capMask_eq]
  split
  · exact Nat.and_pow_two_sub_one_eq_mod hostCapN numCaps
  · next hge =>
    have hle : 2 ^ 64 ≤ 2 ^ numCaps := Nat.pow_le_pow_right (by decide) (by omega)
    rw [Nat.and_pow_two_sub_one_eq_mod hostCapN 64, Nat.mod_eq_of_lt hh,
      Nat.mod_eq_of_lt (Nat.lt_of_lt_of_le hh hle)]

/-- C10: in the non-rootless case, for a `uint64` value `hostCapN`, any
`ctrCapN` (so every `uint64` value) and any number `numCaps` of known
capabilities: the mask the helper computes, `(1 << numCaps) - 1` in `uint64`
arithmetic, is `2 ^ numCaps - 1` for `numCaps < 64` and `2 ^ 64 - 1` from 64
on; if `ctrCapN == hostCapN & mask` then the host set includes the container
set (`ctrCapN & hostCapN == ctrCapN` and `hostCapN >= ctrCapN`); hence the
helper passes exactly for the pairs with `hostCapN > 0` and
`ctrCapN == hostCapN & mask`, that is, with `ctrCapN` equal to the `numCaps`
low bits of `hostCapN`. -/
theorem containerCapMatchesHost_accepts_iff (ctrCapN hostCapN numCaps : Nat)
    (hh : hostCapN < 2 ^ 64) :
    capMask numCaps = (if numCaps < 64 then 2 ^ numCaps - 1 else 2 ^ 64 - 1) ∧
    (ctrCapN = hostCapN &&& (if numCaps < 64 then 2 ^ numCaps - 1 else 2 ^ 64 - 1) →
      ctrCapN &&& hostCapN = ctrCapN ∧ hostCapN ≥ ctrCapN) ∧
    (containerCapMatchesHost false ctrCapN hostCapN numCaps = .ok ()
      ↔ hostCapN > 0 ∧
        ctrCapN = hostCapN &&& (if numCaps < 64 then 2 ^ numCaps - 1 else 2 ^ 64 - 1)) ∧
    (containerCapMatchesHost false ctrCapN hostCapN numCaps = .ok ()
      ↔ hostCapN > 0 ∧ ctrCapN = hostCapN % 2 ^ numCaps) := by
  have hmask := capMask_eq numCaps
  have hmod := land_capMask_eq_mod hostCapN numCaps hh
  have hsup : ctrCapN = hostCapN &&& capMask numCaps →
      ctrCapN &&& hostCapN = ctrCapN ∧ hostCapN ≥ ctrCapN := by
    intro heq
    rw [heq]
    exact ⟨land_land_self _ _, Nat.and_le_left⟩
  have hiff : containerCapMatchesHost false ctrCapN hostCapN numCaps = .ok ()
      ↔ hostCapN > 0 ∧ ctrCapN = hostCapN &&& capMask numCaps := by
    unfold containerCapMatchesHost
    by_cases hpos : hostCapN > 0
    · by_cases heq : ctrCapN = hostCapN &&& capMask numCaps
      · have hge : hostCapN ≥ ctrCapN := (hsup heq).2
        simp [hpos, hge, heq.symm]
      · by_cases hge : hostCapN ≥ ctrCapN
        · simp [hpos, hge, heq]
        · simp [hpos, hge, heq]
    · simp [hpos]
  refine ⟨hmask, ?_, ?_, ?_⟩
  · rw [← hmask]
    exact hsup
  · rw [← hmask]
    exact hiff
  · rw [← hmod]
    exact hiff

theorem containerCapMatchesHost_accepts_iff_witness :
    (0x1ffffffffff : Nat) < 2 ^ 64 ∧
    (capMask 38 = (if 38 < 64 then 2 ^ 38 - 1 else 2 ^ 64 - 1) ∧
    (0x3fffffffff = 0x1ffffffffff &&& (if 38 < 64 then 2 ^ 38 - 1 else 2 ^ 64 - 1) →
      0x3fffffffff &&& 0x1ffffffffff = 0x3fffffffff ∧ 0x1ffffffffff ≥ 0x3fffffffff) ∧
    (containerCapMatchesHost false 0x3fffffffff 0x1ffffffffff 38 = .ok ()
      ↔ 0x1ffffffffff > 0 ∧
        0x3fffffffff = 0x1ffffffffff &&& (if 38 < 64 then 2 ^ 38 - 1 else 2 ^ 64 - 1)) ∧
    (containerCapMatchesHost false 0x3fffffffff 0x1ffffffffff 38 = .ok ()
      ↔ 0x1ffffffffff > 0 ∧ 0x3fffffffff = 0x1ffffffffff % 2 ^ 38)) :=
  ⟨by decide,
    containerCapMatchesHost_accepts_iff 0x3fffffffff 0x1ffffffffff 38 (by decide)⟩

/-- The scenario of the helper's comment: the host has more capabilities
(41 bits) than the 38 known at compile time, the container has exactly the
38 known ones; the helper passes.  With a container capability missing it
fails at the last expectation, and with a zero host set at the first.  The
last expectation is an equality with the masked host set, not a subset test:
the empty container set, a subset of every host set, fails it. -/
theorem containerCapMatchesHost_examples :
    capMask 38 = 0x3fffffffff ∧
    capMask 64 = 0xffffffffffffffff ∧
    capMask 70 = 0xffffffffffffffff ∧
    containerCapMatchesHost false 0x3fffffffff 0x1ffffffffff 38 = .ok () ∧
    containerCapMatchesHost false 0x3ffffffffe 0x1ffffffffff 38 = .error .ctrNotHostMasked ∧
    containerCapMatchesHost false 0x3fffffffff 0xffffffffffffffff 38 = .ok () ∧
    (0 &&& 0xffffffffffffffff = 0 ∧
      containerCapMatchesHost false 0 0xffffffffffffffff 41 = .error .ctrNotHostMasked) ∧
    containerCapMatchesHost false 0 0 38 = .error .hostCapZero ∧
    containerCapMatchesHost false 0x3fffffffff 0xff 38 = .error .hostCapLessThanCtr ∧
    containerCapMatchesHost true 0x3fffffffff 0 38 = .ok () := by
  refine ⟨by decide, by decide, by decide, rfl, rfl, rfl, ⟨by decide, rfl⟩, rfl, rfl, rfl⟩

end integration
